import Mathlib

/- Shallow embedding of scipy/linalg/special_matrices.py.
   2-D numpy arrays are modelled as `Mat`: an explicit shape together with an
   entry function (gather semantics, as in the source's index-array tricks);
   numeric entries are `Int` (exact arithmetic stands in for numeric dtypes).
   For `block_diag`, whose validation depends on the number of dimensions and
   whose output dtype is part of the contract, the more general `NDArr` model
   (shape vector, flat row-major data, dtype tag) is used. -/

namespace SpecialMatrices

/-- Model of a 2-D numpy array: explicit shape plus entry function. -/
@[ext]
structure Mat where
  rows : Nat
  cols : Nat
  entry : Nat → Nat → Int

/-- Rows of a `Mat` listed out, for comparison with literal examples. -/
def toList (A : Mat) : List (List Int) :=
  (List.range A.rows).map (fun i => (List.range A.cols).map (fun j => A.entry i j))

/-- tri(N, M, k): the source computes
    `np.greater_equal(np.subtract.outer(np.arange(N), np.arange(M)), -k)`,
    so entry (i, j) is 1 when `i - j >= -k`, else 0 (the boolean mask and its
    integer cast are both modelled as 0/1 values). -/
def tri (N M : Nat) (k : Int) : Mat :=
  ⟨N, M, fun i j => if -k ≤ (i : Int) - (j : Int) then 1 else 0⟩

/-- tril(m, k): `tri(m.shape[0], m.shape[1], k) * m`, an elementwise mask. -/
def tril (m : Mat) (k : Int) : Mat :=
  ⟨m.rows, m.cols, fun i j => (tri m.rows m.cols k).entry i j * m.entry i j⟩

/-- triu(m, k): `(1 - tri(m.shape[0], m.shape[1], k - 1)) * m`. -/
def triu (m : Mat) (k : Int) : Mat :=
  ⟨m.rows, m.cols, fun i j => (1 - (tri m.rows m.cols (k - 1)).entry i j) * m.entry i j⟩

/-- toeplitz(c, r): `vals = np.concatenate((r[-1:0:-1], c))` (a reversed copy of
    r[1:], then c), gathered through `indx[i, j] = i + (len(r) - 1 - j)` coming
    from `np.ogrid[0:len(c), len(r)-1:-1:-1]`.  When `r` is absent the source
    takes `r = c.conjugate()`, which on integer entries is `c` itself. -/
def toeplitz (c : List Int) (ropt : Option (List Int)) : Mat :=
  let r := match ropt with
    | none => c
    | some r => r
  let vals := (r.drop 1).reverse ++ c
  ⟨c.length, r.length, fun i j => vals.getD (i + (r.length - 1 - j)) 0⟩

/-- hankel(c, r): `vals = np.concatenate((c, r[1:]))`, gathered through
    `indx[i, j] = i + j` coming from `np.ogrid[0:len(c), 0:len(r)]`.  When `r`
    is absent the source takes `r = np.zeros_like(c)`. -/
def hankel (c : List Int) (ropt : Option (List Int)) : Mat :=
  let r := match ropt with
    | none => List.replicate c.length 0
    | some r => r
  let vals := c ++ r.drop 1
  ⟨c.length, r.length, fun i j => vals.getD (i + j) 0⟩

/-- np.hstack on two blocks, entrywise. -/
def hstackF (A B : Mat) : Mat :=
  ⟨A.rows, A.cols + B.cols, fun i j => if j < A.cols then A.entry i j else B.entry i (j - A.cols)⟩

/-- np.vstack on two blocks, entrywise. -/
def vstackF (A B : Mat) : Mat :=
  ⟨A.rows + B.rows, A.cols, fun i j => if i < A.rows then A.entry i j else B.entry (i - A.rows) j⟩

/-- Elementwise negation `-H`. -/
def negF (A : Mat) : Mat := ⟨A.rows, A.cols, fun i j => -A.entry i j⟩

/-- Sylvester doubling loop of hadamard:
    `H = np.vstack((np.hstack((H, H)), np.hstack((H, -H))))` iterated `k` times
    starting from `np.array([[1]])`. -/
def sylvester : Nat → Mat
  | 0 => ⟨1, 1, fun _ _ => 1⟩
  | k + 1 =>
    let H := sylvester k
    vstackF (hstackF H H) (hstackF H (negF H))

/-- hadamard(n): `lg2 = 0 if n < 1 else int(math.log(n, 2))` (the exact integer
    base-2 logarithm models `math.log(n, 2)` in exact arithmetic), a
    `ValueError` (modelled as `none`) when `2 ** lg2 != n`, else the Sylvester
    iteration run `lg2` times. -/
def hadamard (n : Int) : Option Mat :=
  let lg2 : Nat := if n < 1 then 0 else Nat.log 2 n.toNat
  if (2 : Int) ^ lg2 ≠ n then none else some (sylvester lg2)

/-- kron(a, b): the source forms `o = np.outer(a, b).reshape(a.shape + b.shape)`
    (so `o[m, n, p, q] = a[m, n] * b[p, q]`), then `np.concatenate(o, axis=1)`,
    the 3-D array `c1` with `c1[n][i, q] = o[i / P, n, i % P, q]` where
    `P = b.shape[0]`, and finally `np.concatenate(c1, axis=1)`, the 2-D array
    with entry `(i, j) = c1[j / Q][i, j % Q]` where `Q = b.shape[1]`. -/
def kron (a b : Mat) : Mat :=
  let o : Nat → Nat → Nat → Nat → Int := fun m n p q => a.entry m n * b.entry p q
  let c1 : Nat → Nat → Nat → Int := fun n i q => o (i / b.rows) n (i % b.rows) q
  ⟨a.rows * b.rows, a.cols * b.cols, fun i j => c1 (j / b.cols) i (j % b.cols)⟩

/-- Numeric dtype tags relevant to the block_diag claims (values stay `Int`). -/
inductive DType
  | int
  | float
  | complex
deriving DecidableEq

/-- Model of a general ndarray: shape vector, flat row-major data, dtype tag. -/
structure NDArr where
  shape : List Nat
  data : List Int
  dtype : DType
deriving DecidableEq

/-- Throwaway default used for positional `getD` access, as the source's
    `arrs[k]` is always in range wherever it occurs. -/
def defaultNDArr : NDArr := ⟨[], [], DType.float⟩

/-- np.atleast_2d: a scalar becomes shape (1, 1), a 1-D array of length n
    becomes (1, n), anything else is unchanged. -/
def atleast_2d (a : NDArr) : NDArr :=
  match a.shape with
  | [] => ⟨[1, 1], a.data, a.dtype⟩
  | [n] => ⟨[1, n], a.data, a.dtype⟩
  | _ => a

/-- First shape component (rows of a 2-D array). -/
def dRows (a : NDArr) : Nat := a.shape.getD 0 0

/-- Second shape component (cols of a 2-D array). -/
def dCols (a : NDArr) : Nat := a.shape.getD 1 0

/-- Row-major element access into a 2-D ndarray. -/
def aEntry (a : NDArr) (i j : Nat) : Int := a.data.getD (i * dCols a + j) 0

/-- Value at (i, j) after the block_diag scatter loop
    `out[r:r + rr, c:c + cc] = arrs[i]; r += rr; c += cc` over a zero canvas:
    a position inside the current block reads that block, a position beside it
    (past its columns but inside its rows, or vice versa) is never written and
    stays zero, and the remaining positions are handled by the later blocks at
    the advanced offsets. -/
def bdEntry : List NDArr → Nat → Nat → Int
  | [], _, _ => 0
  | a :: rest, i, j =>
    if i < dRows a then
      if j < dCols a then aEntry a i j else 0
    else
      if j < dCols a then 0
      else bdEntry rest (i - dRows a) (j - dCols a)

/-- Flat row-major data of an R×C array with entry function f. -/
def rowMajor (R C : Nat) (f : Nat → Nat → Int) : List Int :=
  (List.range R).flatMap (fun i => (List.range C).map (f i))

/-- Positions collected by the source's
    `bad_args = [k for k in range(len(arrs)) if arrs[k].ndim > 2]`. -/
def badPositions (arrs : List NDArr) : List Nat :=
  (List.range arrs.length).filter (fun k => 2 < (arrs.getD k defaultNDArr).shape.length)

/-- Validation and scatter of block_diag after the blocks have been normalized
    with atleast_2d: when `bad_args` is nonempty the ValueError reports it
    (modelled as the `Except.error` payload), otherwise the blocks are placed
    along the diagonal of a zero canvas of shape
    `np.sum(shapes, axis=0) = (sum of rows, sum of cols)` whose dtype is
    `arrs[0].dtype`. -/
def normBlockDiag (arrs : List NDArr) : Except (List Nat) NDArr :=
  if badPositions arrs = [] then
    Except.ok ⟨[(arrs.map dRows).sum, (arrs.map dCols).sum],
      rowMajor (arrs.map dRows).sum (arrs.map dCols).sum (bdEntry arrs),
      (arrs.getD 0 defaultNDArr).dtype⟩
  else
    Except.error (badPositions arrs)

/-- block_diag(*arrs): an empty argument list is replaced by `([],)` (one empty
    float array of shape (0,)), each block is normalized with atleast_2d, and
    the validated scatter above is run. -/
def block_diag (arrs0 : List NDArr) : Except (List Nat) NDArr :=
  normBlockDiag ((if arrs0 = [] then [⟨[0], [], DType.float⟩] else arrs0).map atleast_2d)

/- ------------------------------------------------------------------ -/
/- Helper lemmas                                                       -/
/- ------------------------------------------------------------------ -/

lemma getD_replicate_zero (n m : Nat) : (List.replicate n (0 : Int)).getD m 0 = 0 := by
  cases Nat.lt_or_ge m n with
  | inl h => rw [List.getD_eq_getElem _ _ (by simpa using h)]; simp
  | inr h => exact List.getD_eq_default _ _ (by simpa using h)

lemma sylvester_rows (k : Nat) : (sylvester k).rows = 2 ^ k := by
  induction k with
  | zero => rfl
  | succ k ih =>
    show (sylvester k).rows + (sylvester k).rows = 2 ^ (k + 1)
    rw [ih, pow_succ]
    omega

lemma sylvester_cols (k : Nat) : (sylvester k).cols = 2 ^ k := by
  induction k with
  | zero => rfl
  | succ k ih =>
    show (sylvester k).cols + (sylvester k).cols = 2 ^ (k + 1)
    rw [ih, pow_succ]
    omega

lemma sylvester_entry_succ (k i j : Nat) :
    (sylvester (k + 1)).entry i j =
      if i < 2 ^ k then
        if j < 2 ^ k then (sylvester k).entry i j else (sylvester k).entry i (j - 2 ^ k)
      else
        if j < 2 ^ k then (sylvester k).entry (i - 2 ^ k) j
        else -(sylvester k).entry (i - 2 ^ k) (j - 2 ^ k) := by
  show (vstackF (hstackF (sylvester k) (sylvester k))
      (hstackF (sylvester k) (negF (sylvester k)))).entry i j = _
  simp only [vstackF, hstackF, negF, sylvester_rows, sylvester_cols]

lemma sylvester_entry_tl (k i j : Nat) (hi : i < 2 ^ k) (hj : j < 2 ^ k) :
    (sylvester (k + 1)).entry i j = (sylvester k).entry i j := by
  rw [sylvester_entry_succ, if_pos hi, if_pos hj]

lemma sylvester_entry_tr (k i j : Nat) (hi : i < 2 ^ k) (hj : ¬ j < 2 ^ k) :
    (sylvester (k + 1)).entry i j = (sylvester k).entry i (j - 2 ^ k) := by
  rw [sylvester_entry_succ, if_pos hi, if_neg hj]

lemma sylvester_entry_bl (k i j : Nat) (hi : ¬ i < 2 ^ k) (hj : j < 2 ^ k) :
    (sylvester (k + 1)).entry i j = (sylvester k).entry (i - 2 ^ k) j := by
  rw [sylvester_entry_succ, if_neg hi, if_pos hj]

lemma sylvester_entry_br (k i j : Nat) (hi : ¬ i < 2 ^ k) (hj : ¬ j < 2 ^ k) :
    (sylvester (k + 1)).entry i j = -(sylvester k).entry (i - 2 ^ k) (j - 2 ^ k) := by
  rw [sylvester_entry_succ, if_neg hi, if_neg hj]

lemma sylvester_entry_pm (k : Nat) : ∀ i j, i < 2 ^ k → j < 2 ^ k →
    (sylvester k).entry i j = 1 ∨ (sylvester k).entry i j = -1 := by
  induction k with
  | zero =>
    intro i j hi hj
    have h1 : i = 0 := by omega
    have h2 : j = 0 := by omega
    subst h1; subst h2
    left; rfl
  | succ k ih =>
    intro i j hi hj
    have hpow : (2 : Nat) ^ (k + 1) = 2 ^ k + 2 ^ k := by rw [pow_succ]; omega
    rw [sylvester_entry_succ]
    split_ifs with h1 h2 h2
    · exact ih i j h1 h2
    · exact ih i (j - 2 ^ k) h1 (by omega)
    · exact ih (i - 2 ^ k) j (by omega) h2
    · rcases ih (i - 2 ^ k) (j - 2 ^ k) (by omega) (by omega) with h | h <;> simp [h]

lemma sylvester_orth (k : Nat) : ∀ i i', i < 2 ^ k → i' < 2 ^ k →
    (∑ j ∈ Finset.range (2 ^ k), (sylvester k).entry i j * (sylvester k).entry i' j)
      = if i = i' then ((2 : Int) ^ k) else 0 := by
  induction k with
  | zero =>
    intro i i' hi hi'
    have h1 : i = 0 := by omega
    have h2 : i' = 0 := by omega
    subst h1; subst h2
    simp [sylvester]
  | succ k ih =>
    intro i i' hi hi'
    have hpow : (2 : Nat) ^ (k + 1) = 2 ^ k + 2 ^ k := by rw [pow_succ]; omega
    have hpowI : ((2 : Int)) ^ (k + 1) = 2 ^ k + 2 ^ k := by rw [pow_succ]; ring
    rw [hpow, Finset.sum_range_add]
    rcases Nat.lt_or_ge i (2 ^ k) with h1 | h1 <;> rcases Nat.lt_or_ge i' (2 ^ k) with h2 | h2
    · have e1 : ∀ j ∈ Finset.range (2 ^ k),
          (sylvester (k + 1)).entry i j * (sylvester (k + 1)).entry i' j
            = (sylvester k).entry i j * (sylvester k).entry i' j := by
        intro j hj
        rw [Finset.mem_range] at hj
        rw [sylvester_entry_tl k i j h1 hj, sylvester_entry_tl k i' j h2 hj]
      have e2 : ∀ j ∈ Finset.range (2 ^ k),
          (sylvester (k + 1)).entry i (2 ^ k + j) * (sylvester (k + 1)).entry i' (2 ^ k + j)
            = (sylvester k).entry i j * (sylvester k).entry i' j := by
        intro j hj
        rw [Finset.mem_range] at hj
        rw [sylvester_entry_tr k i (2 ^ k + j) h1 (by omega),
          sylvester_entry_tr k i' (2 ^ k + j) h2 (by omega)]
        have hj' : 2 ^ k + j - 2 ^ k = j := by omega
        rw [hj']
      rw [Finset.sum_congr rfl e1, Finset.sum_congr rfl e2, ih i i' h1 h2]
      rcases eq_or_ne i i' with hii | hii
      · rw [if_pos hii, if_pos hii, hpowI]
        try ring
      · rw [if_neg hii, if_neg hii]
        try ring
    · have e1 : ∀ j ∈ Finset.range (2 ^ k),
          (sylvester (k + 1)).entry i j * (sylvester (k + 1)).entry i' j
            = (sylvester k).entry i j * (sylvester k).entry (i' - 2 ^ k) j := by
        intro j hj
        rw [Finset.mem_range] at hj
        rw [sylvester_entry_tl k i j h1 hj, sylvester_entry_bl k i' j (by omega) hj]
      have e2 : ∀ j ∈ Finset.range (2 ^ k),
          (sylvester (k + 1)).entry i (2 ^ k + j) * (sylvester (k + 1)).entry i' (2 ^ k + j)
            = -((sylvester k).entry i j * (sylvester k).entry (i' - 2 ^ k) j) := by
        intro j hj
        rw [Finset.mem_range] at hj
        rw [sylvester_entry_tr k i (2 ^ k + j) h1 (by omega),
          sylvester_entry_br k i' (2 ^ k + j) (by omega) (by omega)]
        have hj' : 2 ^ k + j - 2 ^ k = j := by omega
        rw [hj']
        ring
      rw [Finset.sum_congr rfl e1, Finset.sum_congr rfl e2, Finset.sum_neg_distrib,
        ih i (i' - 2 ^ k) h1 (by omega), if_neg (show ¬ i = i' by omega)]
      ring
    · have e1 : ∀ j ∈ Finset.range (2 ^ k),
          (sylvester (k + 1)).entry i j * (sylvester (k + 1)).entry i' j
            = (sylvester k).entry (i - 2 ^ k) j * (sylvester k).entry i' j := by
        intro j hj
        rw [Finset.mem_range] at hj
        rw [sylvester_entry_bl k i j (by omega) hj, sylvester_entry_tl k i' j h2 hj]
      have e2 : ∀ j ∈ Finset.range (2 ^ k),
          (sylvester (k + 1)).entry i (2 ^ k + j) * (sylvester (k + 1)).entry i' (2 ^ k + j)
            = -((sylvester k).entry (i - 2 ^ k) j * (sylvester k).entry i' j) := by
        intro j hj
        rw [Finset.mem_range] at hj
        rw [sylvester_entry_br k i (2 ^ k + j) (by omega) (by omega),
          sylvester_entry_tr k i' (2 ^ k + j) h2 (by omega)]
        have hj' : 2 ^ k + j - 2 ^ k = j := by omega
        rw [hj']
        ring
      rw [Finset.sum_congr rfl e1, Finset.sum_congr rfl e2, Finset.sum_neg_distrib,
        ih (i - 2 ^ k) i' (by omega) h2, if_neg (show ¬ i = i' by omega)]
      ring
    · have e1 : ∀ j ∈ Finset.range (2 ^ k),
          (sylvester (k + 1)).entry i j * (sylvester (k + 1)).entry i' j
            = (sylvester k).entry (i - 2 ^ k) j * (sylvester k).entry (i' - 2 ^ k) j := by
        intro j hj
        rw [Finset.mem_range] at hj
        rw [sylvester_entry_bl k i j (by omega) hj, sylvester_entry_bl k i' j (by omega) hj]
      have e2 : ∀ j ∈ Finset.range (2 ^ k),
          (sylvester (k + 1)).entry i (2 ^ k + j) * (sylvester (k + 1)).entry i' (2 ^ k + j)
            = (sylvester k).entry (i - 2 ^ k) j * (sylvester k).entry (i' - 2 ^ k) j := by
        intro j hj
        rw [Finset.mem_range] at hj
        rw [sylvester_entry_br k i (2 ^ k + j) (by omega) (by omega),
          sylvester_entry_br k i' (2 ^ k + j) (by omega) (by omega)]
        have hj' : 2 ^ k + j - 2 ^ k = j := by omega
        rw [hj']
        ring
      rw [Finset.sum_congr rfl e1, Finset.sum_congr rfl e2,
        ih (i - 2 ^ k) (i' - 2 ^ k) (by omega) (by omega)]
      rcases eq_or_ne i i' with hii | hii
      · rw [if_pos (show i - 2 ^ k = i' - 2 ^ k by omega), if_pos hii, hpowI]
        try ring
      · rw [if_neg (show ¬ (i - 2 ^ k = i' - 2 ^ k) by omega), if_neg hii]
        try ring

lemma int_two_pow_toNat (k : Nat) : ((2 : Int) ^ k).toNat = 2 ^ k := by
  have h : ((2 : Int) ^ k) = ((2 ^ k : Nat) : Int) := by push_cast; ring
  rw [h, Int.toNat_natCast]

lemma hadamard_pow2_eq (k : Nat) : hadamard ((2 : Int) ^ k) = some (sylvester k) := by
  have hpos : (0 : Int) < 2 ^ k := pow_pos (by norm_num) k
  have hlt : ¬ ((2 : Int) ^ k < 1) := by omega
  unfold hadamard
  simp only [hlt, if_false, int_two_pow_toNat, Nat.log_pow (by norm_num : 1 < 2), ne_eq,
    not_true_eq_false, ite_false]

lemma hadamard_none_iff (n : Int) : hadamard n = none ↔ ¬ ∃ k : Nat, n = 2 ^ k := by
  constructor
  · rintro hnone ⟨k, hk⟩
    subst hk
    rw [hadamard_pow2_eq] at hnone
    simp at hnone
  · intro hnp
    have h : (2 : Int) ^ (if n < 1 then (0 : Nat) else Nat.log 2 n.toNat) ≠ n := by
      intro he
      exact hnp ⟨_, he.symm⟩
    show (if (2 : Int) ^ (if n < 1 then (0 : Nat) else Nat.log 2 n.toNat) ≠ n then none
      else some (sylvester (if n < 1 then (0 : Nat) else Nat.log 2 n.toNat))) = none
    rw [if_pos h]

lemma not_pow2 (n : Int)
    (h : ∀ k : Nat, k ≤ n.toNat → (2 : Nat) ^ k ≠ n.toNat) :
    ¬ ∃ k : Nat, n = 2 ^ k := by
  rintro ⟨k, hk⟩
  have h1 : n.toNat = 2 ^ k := by rw [hk, int_two_pow_toNat]
  have h2 : k < 2 ^ k := Nat.lt_two_pow k
  exact h k (by omega) h1.symm

lemma atleast2d_dtype (a : NDArr) : (atleast_2d a).dtype = a.dtype := by
  obtain ⟨sh, da, dt⟩ := a
  cases sh with
  | nil => rfl
  | cons n t1 =>
    cases t1 with
    | nil => rfl
    | cons m t2 => rfl

lemma atleast2d_len2 (a : NDArr) (h : a.shape.length ≤ 2) :
    (atleast_2d a).shape.length = 2 := by
  obtain ⟨sh, da, dt⟩ := a
  cases sh with
  | nil => rfl
  | cons n t1 =>
    cases t1 with
    | nil => rfl
    | cons m t2 =>
      cases t2 with
      | nil => rfl
      | cons x xs => simp at h

lemma atleast2d_gt2_iff (a : NDArr) :
    2 < (atleast_2d a).shape.length ↔ 2 < a.shape.length := by
  obtain ⟨sh, da, dt⟩ := a
  cases sh with
  | nil => simp [atleast_2d]
  | cons n t1 =>
    cases t1 with
    | nil => simp [atleast_2d]
    | cons m t2 => rfl

lemma getD_map_atleast (bs : List NDArr) (k : Nat) (hk : k < bs.length) :
    (bs.map atleast_2d).getD k defaultNDArr = atleast_2d (bs.getD k defaultNDArr) := by
  rw [List.getD_eq_getElem _ _ (by simpa using hk), List.getD_eq_getElem _ _ hk,
    List.getElem_map]

lemma mem_badPositions (arrs : List NDArr) (k : Nat) :
    k ∈ badPositions arrs ↔
      (k < arrs.length ∧ 2 < (arrs.getD k defaultNDArr).shape.length) := by
  unfold badPositions
  rw [List.mem_filter, List.mem_range]
  simp

lemma rowMajor_succ (R C : Nat) (f : Nat → Nat → Int) :
    rowMajor (R + 1) C f = rowMajor R C f ++ (List.range C).map (f R) := by
  unfold rowMajor
  rw [List.range_succ, List.flatMap_append, List.flatMap_cons, List.flatMap_nil, List.append_nil]

lemma rowMajor_length (R C : Nat) (f : Nat → Nat → Int) :
    (rowMajor R C f).length = R * C := by
  induction R with
  | zero => simp [rowMajor]
  | succ R ih =>
    rw [rowMajor_succ, List.length_append, ih, List.length_map, List.length_range]
    ring

lemma rowMajor_getD (R C : Nat) (f : Nat → Nat → Int) :
    ∀ i j, i < R → j < C → (rowMajor R C f).getD (i * C + j) 0 = f i j := by
  induction R with
  | zero => intro i j hi _; omega
  | succ R ih =>
    intro i j hi hj
    rw [rowMajor_succ]
    rcases Nat.lt_or_ge i R with h | h
    · have hlt : i * C + j < (rowMajor R C f).length := by
        rw [rowMajor_length]
        have h1 : (i + 1) * C ≤ R * C := Nat.mul_le_mul_right C (by omega)
        have h2 : i * C + C = (i + 1) * C := by ring
        omega
      rw [List.getD_append _ _ _ _ hlt]
      exact ih i j h hj
    · have hi' : i = R := by omega
      subst hi'
      rw [List.getD_append_right _ _ _ _ (by rw [rowMajor_length]; omega)]
      rw [rowMajor_length]
      have hj2 : i * C + j - i * C = j := by omega
      rw [hj2, List.getD_eq_getElem _ _ (by simpa using hj)]
      simp

lemma sum_take_add_le (g : NDArr → Nat) :
    ∀ (as : List NDArr) (t : Nat), t < as.length →
      ((as.take t).map g).sum + g (as.getD t defaultNDArr) ≤ (as.map g).sum := by
  intro as
  induction as with
  | nil => intro t ht; simp at ht
  | cons a rest ih =>
    intro t ht
    cases t with
    | zero =>
      simp only [List.take_zero, List.map_nil, List.sum_nil, Nat.zero_add,
        List.getD_cons_zero, List.map_cons, List.sum_cons]
      omega
    | succ t =>
      simp only [List.take_succ_cons, List.map_cons, List.sum_cons, List.getD_cons_succ]
      have := ih t (by simpa using ht)
      omega

lemma bdEntry_place : ∀ (as : List NDArr) (t p q : Nat), t < as.length →
    p < dRows (as.getD t defaultNDArr) → q < dCols (as.getD t defaultNDArr) →
    bdEntry as (((as.take t).map dRows).sum + p) (((as.take t).map dCols).sum + q)
      = aEntry (as.getD t defaultNDArr) p q := by
  intro as
  induction as with
  | nil => intro t p q ht; simp at ht
  | cons a rest ih =>
    intro t p q ht hp hq
    cases t with
    | zero =>
      simp only [List.take_zero, List.map_nil, List.sum_nil, Nat.zero_add,
        List.getD_cons_zero] at hp hq ⊢
      unfold bdEntry
      rw [if_pos hp, if_pos hq]
    | succ t =>
      simp only [List.take_succ_cons, List.map_cons, List.sum_cons,
        List.getD_cons_succ] at hp hq ⊢
      unfold bdEntry
      rw [if_neg (show ¬ dRows a + ((rest.take t).map dRows).sum + p < dRows a by omega)]
      rw [if_neg (show ¬ dCols a + ((rest.take t).map dCols).sum + q < dCols a by omega)]
      have e1 : dRows a + ((rest.take t).map dRows).sum + p - dRows a
          = ((rest.take t).map dRows).sum + p := by omega
      have e2 : dCols a + ((rest.take t).map dCols).sum + q - dCols a
          = ((rest.take t).map dCols).sum + q := by omega
      rw [e1, e2]
      exact ih t p q (by simpa using ht) hp hq

lemma bdEntry_zero : ∀ (as : List NDArr) (i j : Nat),
    (∀ t, t < as.length →
      ¬ (((as.take t).map dRows).sum ≤ i ∧
         i < ((as.take t).map dRows).sum + dRows (as.getD t defaultNDArr) ∧
         ((as.take t).map dCols).sum ≤ j ∧
         j < ((as.take t).map dCols).sum + dCols (as.getD t defaultNDArr))) →
    bdEntry as i j = 0 := by
  intro as
  induction as with
  | nil => intro i j _; rfl
  | cons a rest ih =>
    intro i j h
    have h0 := h 0 (by simp)
    simp only [List.take_zero, List.map_nil, List.sum_nil, Nat.zero_add,
      List.getD_cons_zero] at h0
    unfold bdEntry
    split_ifs with h1 h2 h2
    · exfalso; omega
    · rfl
    · rfl
    · apply ih
      intro t ht
      have ht1 := h (t + 1) (by simpa using ht)
      simp only [List.take_succ_cons, List.map_cons, List.sum_cons,
        List.getD_cons_succ] at ht1
      omega

lemma badPositions_nil_of_le2 (bs : List NDArr) (h2 : ∀ a ∈ bs, a.shape.length ≤ 2) :
    badPositions (bs.map atleast_2d) = [] := by
  unfold badPositions
  rw [List.filter_eq_nil_iff]
  intro k hk
  rw [List.mem_range, List.length_map] at hk
  rw [getD_map_atleast bs k hk]
  have hb : (bs.getD k defaultNDArr).shape.length ≤ 2 := by
    apply h2
    rw [List.getD_eq_getElem _ _ hk]
    exact List.getElem_mem hk
  simp only [decide_eq_true_eq, not_lt]
  rw [atleast2d_len2 _ hb]

lemma block_diag_ne_nil (bs : List NDArr) (hne : bs ≠ []) :
    block_diag bs = normBlockDiag (bs.map atleast_2d) := by
  unfold block_diag
  rw [if_neg hne]

lemma block_diag_ok (bs : List NDArr) (hne : bs ≠ [])
    (h2 : ∀ a ∈ bs, a.shape.length ≤ 2) :
    block_diag bs = Except.ok
      ⟨[((bs.map atleast_2d).map dRows).sum, ((bs.map atleast_2d).map dCols).sum],
        rowMajor ((bs.map atleast_2d).map dRows).sum ((bs.map atleast_2d).map dCols).sum
          (bdEntry (bs.map atleast_2d)),
        ((bs.map atleast_2d).getD 0 defaultNDArr).dtype⟩ := by
  rw [block_diag_ne_nil bs hne]
  unfold normBlockDiag
  rw [if_pos (badPositions_nil_of_le2 bs h2)]

/- ------------------------------------------------------------------ -/
/- Claim theorems                                                      -/
/- ------------------------------------------------------------------ -/

/-- C1 counterexample: at N = 1, M = 2, k = 0, i = 0, j = 1 the inequality
    `i <= j + k` of the claim holds, yet `tri` puts a 0 there, so the claimed
    equivalence is false as stated. -/
theorem spec_C1_cex : ¬ (((tri 1 2 0).entry 0 1 = 1) ↔ ((0 : Int) ≤ 1 + 0)) := by
  decide

/-- C1 (amended): tri(N, M, k) has shape (N, M), and for indices in range its
    entry at (i, j) is 1 iff `j <= i + k` (equivalently `i - j >= -k`), else 0.
    The inequality `i <= j + k` stated by the spec is refuted by spec_C1_cex. -/
theorem spec_C1 (N M : Nat) (k : Int) :
    (tri N M k).rows = N ∧ (tri N M k).cols = M ∧
    ∀ i j, i < N → j < M →
      (((tri N M k).entry i j = 1 ↔ (j : Int) ≤ (i : Int) + k) ∧
        ((tri N M k).entry i j = 1 ∨ (tri N M k).entry i j = 0)) := by
  refine ⟨rfl, rfl, fun i j _ _ => ?_⟩
  simp only [tri]
  constructor
  · split <;> omega
  · split <;> simp

/-- C2: toeplitz(c, r) has shape (len c, len r), its entries follow the
    gather formula `vals[(len r - 1) - j + i]` over
    `vals = reverse(r[1:]) ++ c`, entries with equal `i - j` coincide
    (constant diagonals), and the docstring example evaluates as stated. -/
theorem spec_C2 :
    (∀ (c r : List Int), r ≠ [] →
      (toeplitz c (some r)).rows = c.length ∧
      (toeplitz c (some r)).cols = r.length ∧
      ((r.drop 1).reverse ++ c).length = c.length + r.length - 1 ∧
      (∀ i j, i < c.length → j < r.length →
        (toeplitz c (some r)).entry i j
          = ((r.drop 1).reverse ++ c).getD ((r.length - 1) - j + i) 0) ∧
      (∀ i1 j1 i2 j2, i1 < c.length → j1 < r.length → i2 < c.length → j2 < r.length →
        (i1 : Int) - (j1 : Int) = (i2 : Int) - (j2 : Int) →
        (toeplitz c (some r)).entry i1 j1 = (toeplitz c (some r)).entry i2 j2)) ∧
    toList (toeplitz [1, 2, 3] (some [1, 4, 5, 6])) = [[1, 4, 5, 6], [2, 1, 4, 5], [3, 2, 1, 4]] := by
  constructor
  · intro c r hr
    have hr1 : 1 ≤ r.length := by
      cases r with
      | nil => exact absurd rfl hr
      | cons a t => simp
    refine ⟨rfl, rfl, ?_, ?_, ?_⟩
    · simp only [List.length_append, List.length_reverse, List.length_drop]
      omega
    · intro i j hi hj
      simp only [toeplitz]
      have h : i + (r.length - 1 - j) = (r.length - 1) - j + i := by omega
      rw [h]
    · intro i1 j1 i2 j2 h1 h2 h3 h4 hd
      simp only [toeplitz]
      have h : i1 + (r.length - 1 - j1) = i2 + (r.length - 1 - j2) := by omega
      rw [h]
  · decide

/-- C3: hankel(c, r) has shape (len c, len r), its entries follow the gather
    formula `vals[i + j]` over `vals = c ++ r[1:]`, entries with equal `i + j`
    coincide (constant anti-diagonals), and with `r` omitted the last row is
    zero at every column beyond column 0. -/
theorem spec_C3 :
    (∀ (c r : List Int), c ≠ [] → r ≠ [] →
      (hankel c (some r)).rows = c.length ∧
      (hankel c (some r)).cols = r.length ∧
      (c ++ r.drop 1).length = c.length + r.length - 1 ∧
      (∀ i j, (hankel c (some r)).entry i j = (c ++ r.drop 1).getD (i + j) 0) ∧
      (∀ i1 j1 i2 j2, i1 + j1 = i2 + j2 →
        (hankel c (some r)).entry i1 j1 = (hankel c (some r)).entry i2 j2)) ∧
    (∀ c : List Int, c ≠ [] → ∀ j, 0 < j → j < (hankel c none).cols →
      (hankel c none).entry (c.length - 1) j = 0) := by
  constructor
  · intro c r _ hr
    have hr1 : 1 ≤ r.length := by
      cases r with
      | nil => exact absurd rfl hr
      | cons a t => simp
    refine ⟨rfl, rfl, ?_, fun i j => rfl, ?_⟩
    · simp only [List.length_append, List.length_drop]
      omega
    · intro i1 j1 i2 j2 hd
      simp only [hankel]
      rw [hd]
  · intro c hc j hj0 hjc
    have hc1 : 1 ≤ c.length := by
      cases c with
      | nil => exact absurd rfl hc
      | cons a t => simp
    simp only [hankel, List.length_replicate] at hjc ⊢
    rw [List.getD_append_right _ _ _ _ (by omega)]
    rw [List.drop_replicate]
    exact getD_replicate_zero _ _

/-- C4 counterexample: for c = [1, 17, 99], r = [4, 5, 6] the entry at
    (len c - 1, 0) is 99 (the last element of c), not c[0] = 1, refuting the
    claimed corner value. -/
theorem spec_C4_cex :
    ¬ ((hankel [1, 17, 99] (some [4, 5, 6])).entry 2 0 = [1, 17, 99].getD 0 0) := by
  decide

/-- C4 (amended): hankel ignores r[0] — the result is unchanged whenever r and
    r' agree on all elements after index 0 — and the entry at (len c - 1, 0) is
    the LAST element of c (not c[0], which spec_C4_cex refutes). -/
theorem spec_C4 :
    (∀ (c r r' : List Int), r ≠ [] → r' ≠ [] → r.drop 1 = r'.drop 1 →
      hankel c (some r) = hankel c (some r')) ∧
    (∀ (c r : List Int), c ≠ [] →
      (hankel c (some r)).entry (c.length - 1) 0 = c.getD (c.length - 1) 0) := by
  constructor
  · intro c r r' hr hr' hdrop
    have hlen : r.length = r'.length := by
      have h1 := congrArg List.length hdrop
      simp only [List.length_drop] at h1
      cases r with
      | nil => exact absurd rfl hr
      | cons a t =>
        cases r' with
        | nil => exact absurd rfl hr'
        | cons b t' => simp at h1 ⊢; omega
    ext i j
    · rfl
    · exact hlen
    · simp only [hankel, hdrop]
  · intro c r hc
    have hc1 : 1 ≤ c.length := by
      cases c with
      | nil => exact absurd rfl hc
      | cons a t => simp
    simp only [hankel]
    rw [Nat.add_zero, List.getD_append _ _ _ _ (by omega)]

/-- C10: with the mask complement of triu using cutoff k - 1, tril(m, 0) and
    triu(m, 1) partition m exactly, and tril(m, 0) and triu(m, 0) both retain
    the main diagonal. -/
theorem spec_C10 (m : Mat) (i j : Nat) (hi : i < m.rows) (hj : j < m.cols) :
    ((tril m 0).entry i j + (triu m 1).entry i j = m.entry i j) ∧
    (i = j → (tril m 0).entry i j = m.entry i j ∧ (triu m 0).entry i j = m.entry i j) := by
  constructor
  · simp only [tril, triu, tri, sub_self, neg_zero]
    split_ifs with h <;> ring
  · intro hij
    subst hij
    constructor
    · simp only [tril, tri, neg_zero, sub_self, le_refl, if_true]
      ring
    · simp only [triu, tri]
      have h : ¬ (-((0 : Int) - 1) ≤ (i : Int) - (i : Int)) := by norm_num
      rw [if_neg h]
      ring

/-- C5: for every power of two n = 2^k, hadamard(n) succeeds and returns the
    n×n Sylvester matrix, whose entries all lie in {1, -1} and whose rows are
    mutually orthogonal with self inner product n, i.e. H·Hᵗ = n·I; and
    hadamard(4) is the documented 4×4 literal. -/
theorem spec_C5 :
    (∀ k : Nat,
      hadamard ((2 : Int) ^ k) = some (sylvester k) ∧
      (sylvester k).rows = 2 ^ k ∧ (sylvester k).cols = 2 ^ k ∧
      (∀ i j, i < 2 ^ k → j < 2 ^ k →
        ((sylvester k).entry i j = 1 ∨ (sylvester k).entry i j = -1)) ∧
      (∀ i i', i < 2 ^ k → i' < 2 ^ k →
        (∑ j ∈ Finset.range (2 ^ k), (sylvester k).entry i j * (sylvester k).entry i' j)
          = if i = i' then ((2 : Int) ^ k) else 0)) ∧
    (hadamard 4 = some (sylvester 2) ∧
      toList (sylvester 2) = [[1, 1, 1, 1], [1, -1, 1, -1], [1, 1, -1, -1], [1, -1, -1, 1]]) := by
  refine ⟨fun k => ⟨hadamard_pow2_eq k, sylvester_rows k, sylvester_cols k,
    sylvester_entry_pm k, sylvester_orth k⟩, ?_, by decide⟩
  have h4 : ((2 : Int) ^ (2 : Nat)) = 4 := by norm_num
  rw [← h4]
  exact hadamard_pow2_eq 2

/-- C5 witness: the general theorem applied at k = 1 with concrete row indices
    0 and 1 of the 2×2 matrix. -/
theorem spec_C5_witness :
    (∑ j ∈ Finset.range (2 ^ 1), (sylvester 1).entry 0 j * (sylvester 1).entry 1 j)
      = if 0 = 1 then ((2 : Int) ^ 1) else 0 :=
  (spec_C5.1 1).2.2.2.2 0 1 (by decide) (by decide)

/-- C6: hadamard(n) fails (returns no matrix, hence no partial construction)
    iff n is not a positive power of two; in particular it fails for
    n ∈ {0, 3, 5, 6} and succeeds for n ∈ {1, 2, 4, 8, 16}. -/
theorem spec_C6 :
    (∀ n : Int, hadamard n = none ↔ ¬ ∃ k : Nat, n = 2 ^ k) ∧
    (hadamard 0 = none ∧ hadamard 3 = none ∧ hadamard 5 = none ∧ hadamard 6 = none) ∧
    ((hadamard 1).isSome ∧ (hadamard 2).isSome ∧ (hadamard 4).isSome ∧
      (hadamard 8).isSome ∧ (hadamard 16).isSome) := by
  refine ⟨hadamard_none_iff, ⟨?_, ?_, ?_, ?_⟩, ?_, ?_, ?_, ?_, ?_⟩
  · exact (hadamard_none_iff 0).mpr (not_pow2 0 (by decide))
  · exact (hadamard_none_iff 3).mpr (not_pow2 3 (by decide))
  · exact (hadamard_none_iff 5).mpr (not_pow2 5 (by decide))
  · exact (hadamard_none_iff 6).mpr (not_pow2 6 (by decide))
  · rw [show (1 : Int) = 2 ^ (0 : Nat) by norm_num, hadamard_pow2_eq]; rfl
  · rw [show (2 : Int) = 2 ^ (1 : Nat) by norm_num, hadamard_pow2_eq]; rfl
  · rw [show (4 : Int) = 2 ^ (2 : Nat) by norm_num, hadamard_pow2_eq]; rfl
  · rw [show (8 : Int) = 2 ^ (3 : Nat) by norm_num, hadamard_pow2_eq]; rfl
  · rw [show (16 : Int) = 2 ^ (4 : Nat) by norm_num, hadamard_pow2_eq]; rfl

/-- C7: kron(a, b) has shape (M·P, N·Q) and its (I, J) block of size P×Q is
    a[I,J] * b: the entry at (I·P + p, J·Q + q) equals a[I,J] * b[p,q]. -/
theorem spec_C7 (a b : Mat) :
    (kron a b).rows = a.rows * b.rows ∧ (kron a b).cols = a.cols * b.cols ∧
    (∀ I J p q, I < a.rows → J < a.cols → p < b.rows → q < b.cols →
      (kron a b).entry (I * b.rows + p) (J * b.cols + q) = a.entry I J * b.entry p q) := by
  refine ⟨rfl, rfl, fun I J p q hI hJ hp hq => ?_⟩
  show a.entry ((I * b.rows + p) / b.rows) ((J * b.cols + q) / b.cols)
      * b.entry ((I * b.rows + p) % b.rows) ((J * b.cols + q) % b.cols)
    = a.entry I J * b.entry p q
  have hP : 0 < b.rows := by omega
  have hQ : 0 < b.cols := by omega
  have hd1 : (I * b.rows + p) / b.rows = I := by
    rw [Nat.mul_comm I b.rows, Nat.mul_add_div hP, Nat.div_eq_of_lt hp, Nat.add_zero]
  have hm1 : (I * b.rows + p) % b.rows = p := by
    rw [Nat.mul_comm I b.rows, Nat.mul_add_mod, Nat.mod_eq_of_lt hp]
  have hd2 : (J * b.cols + q) / b.cols = J := by
    rw [Nat.mul_comm J b.cols, Nat.mul_add_div hQ, Nat.div_eq_of_lt hq, Nat.add_zero]
  have hm2 : (J * b.cols + q) % b.cols = q := by
    rw [Nat.mul_comm J b.cols, Nat.mul_add_mod, Nat.mod_eq_of_lt hq]
  rw [hd1, hm1, hd2, hm2]

/-- C7 witness: the block identity instantiated on the docstring example
    kron([[1,2],[3,4]], [[1,1,1]]) at block (1, 0), inner position (0, 2). -/
theorem spec_C7_witness :
    (kron ⟨2, 2, fun i j => (i : Int) * 2 + (j : Int) + 1⟩ ⟨1, 3, fun _ _ => 1⟩).entry
        (1 * 1 + 0) (0 * 3 + 2)
      = (Mat.mk 2 2 (fun i j => (i : Int) * 2 + (j : Int) + 1)).entry 1 0
        * (Mat.mk 1 3 (fun _ _ => 1)).entry 0 2 :=
  (spec_C7 ⟨2, 2, fun i j => (i : Int) * 2 + (j : Int) + 1⟩ ⟨1, 3, fun _ _ => 1⟩).2.2
    1 0 0 2 (by decide) (by decide) (by decide) (by decide)

/-- C8: block_diag on nonempty blocks of dimension at most 2 (scalars and 1-D
    sequences having been normalized by atleast_2d to 1×n) returns an array of
    shape (sum of rows, sum of cols) with the dtype of the first block, each
    block placed at the cumulative (row, col) offset of the preceding blocks,
    zero everywhere outside the placed blocks; block_diag([[1,2,3]], [[4]]) is
    the documented literal, and block_diag() returns an empty (1, 0) array
    without raising. -/
theorem spec_C8 :
    (∀ bs : List NDArr, bs ≠ [] → (∀ a ∈ bs, a.shape.length ≤ 2) →
      ∃ out, block_diag bs = Except.ok out ∧
        out.shape = [((bs.map atleast_2d).map dRows).sum, ((bs.map atleast_2d).map dCols).sum] ∧
        out.dtype = (bs.getD 0 defaultNDArr).dtype ∧
        (∀ t p q, t < bs.length →
          p < dRows ((bs.map atleast_2d).getD t defaultNDArr) →
          q < dCols ((bs.map atleast_2d).getD t defaultNDArr) →
          aEntry out ((((bs.map atleast_2d).take t).map dRows).sum + p)
              ((((bs.map atleast_2d).take t).map dCols).sum + q)
            = aEntry ((bs.map atleast_2d).getD t defaultNDArr) p q) ∧
        (∀ i j, i < ((bs.map atleast_2d).map dRows).sum →
            j < ((bs.map atleast_2d).map dCols).sum →
          (∀ t, t < bs.length →
            ¬ ((((bs.map atleast_2d).take t).map dRows).sum ≤ i ∧
               i < (((bs.map atleast_2d).take t).map dRows).sum
                   + dRows ((bs.map atleast_2d).getD t defaultNDArr) ∧
               (((bs.map atleast_2d).take t).map dCols).sum ≤ j ∧
               j < (((bs.map atleast_2d).take t).map dCols).sum
                   + dCols ((bs.map atleast_2d).getD t defaultNDArr))) →
          aEntry out i j = 0)) ∧
    block_diag [⟨[1, 3], [1, 2, 3], DType.int⟩, ⟨[1, 1], [4], DType.int⟩]
      = Except.ok ⟨[2, 4], [1, 2, 3, 0, 0, 0, 0, 4], DType.int⟩ ∧
    (∃ e, block_diag [] = Except.ok e ∧ e.shape = [1, 0]) := by
  refine ⟨?_, rfl, ⟨⟨[1, 0], [], DType.float⟩, rfl, rfl⟩⟩
  intro bs hne h2
  refine ⟨_, block_diag_ok bs hne h2, rfl, ?_, ?_, ?_⟩
  · have h0 : 0 < bs.length := List.length_pos.mpr hne
    show ((bs.map atleast_2d).getD 0 defaultNDArr).dtype = (bs.getD 0 defaultNDArr).dtype
    rw [getD_map_atleast bs 0 h0, atleast2d_dtype]
  · intro t p q ht hp hq
    have htl : t < (bs.map atleast_2d).length := by simpa using ht
    have hiR := sum_take_add_le dRows (bs.map atleast_2d) t htl
    have hjC := sum_take_add_le dCols (bs.map atleast_2d) t htl
    show (rowMajor ((bs.map atleast_2d).map dRows).sum ((bs.map atleast_2d).map dCols).sum
        (bdEntry (bs.map atleast_2d))).getD
        (((((bs.map atleast_2d).take t).map dRows).sum + p)
            * ((bs.map atleast_2d).map dCols).sum
          + ((((bs.map atleast_2d).take t).map dCols).sum + q)) 0
      = aEntry ((bs.map atleast_2d).getD t defaultNDArr) p q
    rw [rowMajor_getD _ _ _ _ _ (by omega) (by omega)]
    exact bdEntry_place (bs.map atleast_2d) t p q htl hp hq
  · intro i j hiR hjC hout
    show (rowMajor ((bs.map atleast_2d).map dRows).sum ((bs.map atleast_2d).map dCols).sum
        (bdEntry (bs.map atleast_2d))).getD
        (i * ((bs.map atleast_2d).map dCols).sum + j) 0 = 0
    rw [rowMajor_getD _ _ _ _ _ hiR hjC]
    apply bdEntry_zero
    intro t htl
    exact hout t (by simpa using htl)

/-- C8 witness: the placement equation applied to two concrete 2-D blocks at
    block index 1 with inner position (0, 0). -/
theorem spec_C8_witness :
    ∃ out, block_diag [⟨[1, 2], [10, 20], DType.int⟩, ⟨[2, 1], [30, 40], DType.int⟩]
        = Except.ok out ∧
      aEntry out
        (((([⟨[1, 2], [10, 20], DType.int⟩,
             ⟨[2, 1], [30, 40], DType.int⟩].map atleast_2d).take 1).map dRows).sum + 0)
        (((([⟨[1, 2], [10, 20], DType.int⟩,
             ⟨[2, 1], [30, 40], DType.int⟩].map atleast_2d).take 1).map dCols).sum + 0)
        = aEntry (([⟨[1, 2], [10, 20], DType.int⟩,
            ⟨[2, 1], [30, 40], DType.int⟩].map atleast_2d).getD 1 defaultNDArr) 0 0 := by
  obtain ⟨out, hok, _, _, hblk, _⟩ :=
    spec_C8.1 [⟨[1, 2], [10, 20], DType.int⟩, ⟨[2, 1], [30, 40], DType.int⟩]
      (by decide) (by decide)
  exact ⟨out, hok, hblk 1 0 0 (by decide) (by decide) (by decide)⟩

/-- C9: block_diag fails iff some input block has more than 2 dimensions, and
    the error payload lists exactly the 0-indexed positions of every offending
    block (the Except value carries no partial output). -/
theorem spec_C9 (bs : List NDArr) :
    ((∃ l, block_diag bs = Except.error l) ↔ ∃ a ∈ bs, 2 < a.shape.length) ∧
    (∀ l, block_diag bs = Except.error l →
      l ≠ [] ∧ ∀ k, k ∈ l ↔ (k < bs.length ∧ 2 < (bs.getD k defaultNDArr).shape.length)) := by
  rcases eq_or_ne bs [] with hbs | hbs
  · subst hbs
    constructor
    · constructor
      · rintro ⟨l, hl⟩
        rw [show block_diag [] = Except.ok ⟨[1, 0], [], DType.float⟩ from rfl] at hl
        exact Except.noConfusion hl
      · rintro ⟨a, ha, _⟩
        exact absurd ha (List.not_mem_nil a)
    · intro l hl
      rw [show block_diag [] = Except.ok ⟨[1, 0], [], DType.float⟩ from rfl] at hl
      exact Except.noConfusion hl
  · rw [block_diag_ne_nil bs hbs]
    have key : ∀ k : Nat, k ∈ badPositions (bs.map atleast_2d) ↔
        (k < bs.length ∧ 2 < (bs.getD k defaultNDArr).shape.length) := by
      intro k
      rw [mem_badPositions]
      constructor
      · rintro ⟨hk, hgt⟩
        rw [List.length_map] at hk
        rw [getD_map_atleast bs k hk, atleast2d_gt2_iff] at hgt
        exact ⟨hk, hgt⟩
      · rintro ⟨hk, hgt⟩
        refine ⟨by simpa using hk, ?_⟩
        rw [getD_map_atleast bs k hk, atleast2d_gt2_iff]
        exact hgt
    have memiff : (∃ a ∈ bs, 2 < a.shape.length) ↔ badPositions (bs.map atleast_2d) ≠ [] := by
      constructor
      · rintro ⟨a, ha, hgt⟩
        obtain ⟨k, hk, hak⟩ := List.mem_iff_getElem.mp ha
        intro hnil
        have hmem : k ∈ badPositions (bs.map atleast_2d) := by
          rw [key k]
          refine ⟨hk, ?_⟩
          rw [List.getD_eq_getElem _ _ hk, hak]
          exact hgt
        rw [hnil] at hmem
        exact absurd hmem (List.not_mem_nil k)
      · intro hne
        obtain ⟨k, hk⟩ := List.exists_mem_of_ne_nil _ hne
        rw [key k] at hk
        refine ⟨bs.getD k defaultNDArr, ?_, hk.2⟩
        rw [List.getD_eq_getElem _ _ hk.1]
        exact List.getElem_mem hk.1
    unfold normBlockDiag
    by_cases hbad : badPositions (bs.map atleast_2d) = []
    · rw [if_pos hbad]
      constructor
      · constructor
        · rintro ⟨l, hl⟩
          exact Except.noConfusion hl
        · intro hex
          exact absurd hbad (memiff.mp hex)
      · intro l hl
        exact Except.noConfusion hl
    · rw [if_neg hbad]
      constructor
      · constructor
        · intro _
          exact memiff.mpr hbad
        · intro _
          exact ⟨_, rfl⟩
      · intro l hl
        have hlb : l = badPositions (bs.map atleast_2d) :=
          ((Except.error.injEq _ _).mp hl).symm
        constructor
        · rw [hlb]; exact hbad
        · intro k; rw [hlb]; exact key k

/-- C9 witness: a single 3-dimensional block makes block_diag fail. -/
theorem spec_C9_witness :
    ∃ l, block_diag [⟨[1, 1, 1], [5], DType.int⟩] = Except.error l :=
  (spec_C9 [⟨[1, 1, 1], [5], DType.int⟩]).1.mpr
    ⟨⟨[1, 1, 1], [5], DType.int⟩, by decide, by decide⟩

/-- C1 witness: the amended equivalence applied inside the docstring example
    tri(3, 5, 2) at entry (1, 3). -/
theorem spec_C1_witness :
    (tri 3 5 2).entry 1 3 = 1 ↔ (((3 : Nat) : Int) ≤ ((1 : Nat) : Int) + 2) :=
  ((spec_C1 3 5 2).2.2 1 3 (by decide) (by decide)).1

/-- C2 witness: the constant-diagonal equality applied on the docstring example
    at positions (1, 0) and (2, 1). -/
theorem spec_C2_witness :
    (toeplitz [1, 2, 3] (some [1, 4, 5, 6])).entry 1 0
      = (toeplitz [1, 2, 3] (some [1, 4, 5, 6])).entry 2 1 :=
  (spec_C2.1 [1, 2, 3] [1, 4, 5, 6] (by decide)).2.2.2.2 1 0 2 1
    (by decide) (by decide) (by decide) (by decide) (by decide)

/-- C3 witness: the constant-anti-diagonal equality applied on the docstring
    example at positions (1, 2) and (3, 0). -/
theorem spec_C3_witness :
    (hankel [1, 2, 3, 4] (some [4, 7, 7, 8, 9])).entry 1 2
      = (hankel [1, 2, 3, 4] (some [4, 7, 7, 8, 9])).entry 3 0 :=
  (spec_C3.1 [1, 2, 3, 4] [4, 7, 7, 8, 9] (by decide) (by decide)).2.2.2.2 1 2 3 0 (by decide)

/-- C4 witness: the r[0]-irrelevance equality applied at c = [1], r = [5, 7]
    and r' = [9, 7]. -/
theorem spec_C4_witness :
    hankel [1] (some [5, 7]) = hankel [1] (some [9, 7]) :=
  spec_C4.1 [1] [5, 7] [9, 7] (by decide) (by decide) (by decide)

/-- C10 witness: the partition equality applied to a concrete 2×2 matrix at
    entry (0, 1). -/
theorem spec_C10_witness :
    (tril ⟨2, 2, fun i j => (i : Int) + 2 * (j : Int)⟩ 0).entry 0 1
        + (triu ⟨2, 2, fun i j => (i : Int) + 2 * (j : Int)⟩ 1).entry 0 1
      = (Mat.mk 2 2 (fun i j => (i : Int) + 2 * (j : Int))).entry 0 1 :=
  (spec_C10 ⟨2, 2, fun i j => (i : Int) + 2 * (j : Int)⟩ 0 1 (by decide) (by decide)).1

end SpecialMatrices
